import Mathlib

/-!
Shallow embedding of the SomPOS_V2 inventory / sales core
(src/inventory/models.py, src/inventory/utils.py, src/sales/models.py,
src/sales/serializers.py, src/customers/models.py).

Python `Decimal` values are modelled as rationals (`ℚ`): every `Decimal`
is a terminating decimal fraction, hence a rational, and all arithmetic
used by the code (add, sub, mul, div, comparison, quantize, floor
division, `is_integer`) is exact rational arithmetic.
-/

/-- Python decimal `ROUND_HALF_UP`: round to the nearest
integer, ties away from zero. -/
def roundHalfUp (x : ℚ) : ℤ :=
  if 0 ≤ x then ⌊x + 1/2⌋ else -⌊-x + 1/2⌋

/-- Quantization `Decimal.quantize(Decimal('0.0001'), rounding=ROUND_HALF_UP)`:
round to four decimal places, ties away from zero.  Both `Stock.sell`
and `Stock.update_quantity` (src/inventory/models.py) use exactly this
fixed exponent. -/
def quantize4 (x : ℚ) : ℚ :=
  (roundHalfUp (x * 10000) : ℚ) / 10000

/-- Python `Decimal.is_integer()`: the value is integral (trailing zeros do not
matter). -/
def isIntegral (x : ℚ) : Prop := ((⌊x⌋ : ℚ) = x)

instance (x : ℚ) : Decidable (isIntegral x) := by
  unfold isIntegral; infer_instance

/-- Python `int(Decimal)`: truncation toward zero. -/
def pyTrunc (x : ℚ) : ℤ :=
  if 0 ≤ x then ⌊x⌋ else -⌊-x⌋

/-- Python `Decimal.__floordiv__`: `a // b` on decimals returns the
integer part of the true quotient, truncated toward zero. -/
def decFloorDiv (a b : ℚ) : ℤ := pyTrunc (a / b)

/-- Written from the spec (§4.1), for comparison with the code:
"any quantity value must be normalized via decimal quantization to
`10^-p` using round-half-up". -/
def specQuantize (p : ℕ) (x : ℚ) : ℚ :=
  (roundHalfUp (x * (10 : ℚ) ^ p) : ℚ) / (10 : ℚ) ^ p

/-! ### Batch ledger (src/inventory/models.py, `ProductBatch`) -/

/-- One row of `ProductBatch`: `quantity` is `DecimalField(max_digits=10,
decimal_places=4)`, `expiration_date` is a nullable date (modelled as an
integer day number), `created_at` an auto timestamp. -/
structure ProductBatch where
  quantity : ℚ
  expiration_date : Option ℤ
  created_at : ℤ
deriving DecidableEq, Repr

/-- Modelled from the spec: the repository's Django settings (database
backend configuration) are not under src/, and the placement of NULL
values under the ascending `ORDER BY expiration_date, created_at`
emitted for `order_by('expiration_date', 'created_at')` is decided by
the database backend.  The spec's ordering contract
"(expiration_date NULLS LAST, created_at)" is taken as the backend's
behavior: a batch sorts by the key (null-flag, date, created_at) with
the null-flag of a dated batch strictly below the null-flag of an
undated one. -/
def batchKey (b : ProductBatch) : ℕ × ℤ × ℤ :=
  match b.expiration_date with
  | some d => (0, d, b.created_at)
  | none => (1, 0, b.created_at)

/-- Lexicographic comparison of sort keys. -/
def keyLE (x y : ℕ × ℤ × ℤ) : Prop :=
  x.1 < y.1 ∨ (x.1 = y.1 ∧ (x.2.1 < y.2.1 ∨ (x.2.1 = y.2.1 ∧ x.2.2 ≤ y.2.2)))

instance (x y : ℕ × ℤ × ℤ) : Decidable (keyLE x y) := by
  unfold keyLE; infer_instance

/-- The comparison used to enumerate a product's batches. -/
def batchLE (a b : ProductBatch) : Prop := keyLE (batchKey a) (batchKey b)

instance (a b : ProductBatch) : Decidable (batchLE a b) := by
  unfold batchLE; infer_instance

instance : IsTotal ProductBatch batchLE := by
  constructor
  intro a b
  unfold batchLE keyLE
  omega

instance : IsTrans ProductBatch batchLE := by
  constructor
  intro a b c hab hbc
  unfold batchLE keyLE at *
  omega

/-- The queryset `self.product.batches.order_by('expiration_date', 'created_at')`
(also the `Meta.ordering` default of `ProductBatch`). -/
def orderedBatches (bs : List ProductBatch) : List ProductBatch :=
  List.insertionSort batchLE bs

example : orderedBatches
    [⟨5, none, 0⟩, ⟨5, some 7, 3⟩, ⟨5, some 7, 1⟩, ⟨5, some 2, 9⟩] =
    [⟨5, some 2, 9⟩, ⟨5, some 7, 1⟩, ⟨5, some 7, 3⟩, ⟨5, none, 0⟩] := by
  decide

/-! ### Stock aggregate (src/inventory/models.py, `Stock`) -/

/-- The error taxonomy raised by the stock engine (spec §7).  In the
source all of these are `ValueError`s distinguished by message:
`fractionalQuantityNotAllowed` is "Для штучных товаров количество
должно быть целым", `nonPositiveQuantity` is "Количество должно быть
положительным", `insufficientStock` is "Недостаточно товара …
Доступно: available, запрошено: requested", `insufficientBatchStock`
is "Недостаточно товара в партии …". -/
inductive SellError where
  | fractionalQuantityNotAllowed
  | nonPositiveQuantity
  | insufficientStock (available requested : ℚ)
  | insufficientBatchStock (available requested : ℚ)
deriving DecidableEq, Repr

/-- The per-product state touched by the stock engine:
`decimal_places` of the product's unit, the product's `ProductBatch`
rows, and the cached `Stock.quantity` aggregate. -/
structure ProductState where
  decimal_places : ℕ
  batches : List ProductBatch
  stock_quantity : ℚ
deriving DecidableEq, Repr

/-- The aggregate `self.product.batches.aggregate(total=Sum('quantity'))`. -/
def sumBatches (bs : List ProductBatch) : ℚ :=
  (bs.map ProductBatch.quantity).sum

/-- Method `Stock.update_quantity`: recompute the cached aggregate as the sum
over the product's batches, quantized to `0.0001` with round-half-up,
and persist it. -/
def update_quantity (st : ProductState) : ProductState :=
  { st with stock_quantity := quantize4 (sumBatches st.batches) }

/-- Method `ProductBatch.sell(quantity)` applied to one batch row: validate
(whole number for zero-decimal units, amount within the batch),
subtract, and delete the row when the remaining quantity is exactly
zero (`none` = row deleted). -/
def ProductBatch.sellStep (p : ℕ) (amt : ℚ) (b : ProductBatch) :
    Except SellError (Option ProductBatch) :=
  if p = 0 ∧ ¬ isIntegral amt then .error .fractionalQuantityNotAllowed
  else if b.quantity < amt then .error (.insufficientBatchStock b.quantity amt)
  else if b.quantity - amt = 0 then .ok none
  else .ok (some { b with quantity := b.quantity - amt })

/-- Result of the batch walk of `Stock.sell`: the product's batch rows
after the walk, the first error raised (if any), and whether at least
one `ProductBatch.save` ran (each save fires the `post_save` signal
`update_stock_on_batch_change`, which recomputes the cached
aggregate). -/
structure WalkResult where
  batches : List ProductBatch
  err : Option SellError
  touched : Bool
deriving DecidableEq, Repr

/-- The `for batch in batches:` loop of `Stock.sell`: walk the ordered
batches, selling `min(remaining, batch.quantity)` from each, stopping
once `remaining ≤ 0`.  Batch mutations performed before an error are
kept - each `ProductBatch.sell` saves (or deletes) its row
immediately. -/
def consumeWalk (p : ℕ) : ℚ → List ProductBatch → WalkResult
  | _, [] => ⟨[], none, false⟩
  | remaining, b :: rest =>
    if remaining ≤ 0 then ⟨b :: rest, none, false⟩
    else
      match b.sellStep p (min remaining b.quantity) with
      | .error e => ⟨b :: rest, some e, false⟩
      | .ok none =>
        ⟨(consumeWalk p (remaining - min remaining b.quantity) rest).batches,
         (consumeWalk p (remaining - min remaining b.quantity) rest).err,
         true⟩
      | .ok (some b') =>
        ⟨b' :: (consumeWalk p (remaining - min remaining b.quantity) rest).batches,
         (consumeWalk p (remaining - min remaining b.quantity) rest).err,
         true⟩

/-- Method `Stock.sell(quantity)` (src/inventory/models.py lines 578-612):
quantize the argument to `0.0001` round-half-up; reject fractional
quantities for zero-decimal units, non-positive quantities, and
quantities exceeding the cached aggregate; then walk the batches in
`order_by('expiration_date', 'created_at')` order and finally
recompute the aggregate via `update_quantity`.  The second component
is the raised error, `none` on success; the first component is the
state as left behind by the call (an aborted walk keeps the batch
mutations already saved, and the cache reflects the last fired
`post_save` signal). -/
def stock_sell (st : ProductState) (quantity : ℚ) :
    ProductState × Option SellError :=
  if st.decimal_places = 0 ∧ ¬ isIntegral (quantize4 quantity) then
    (st, some .fractionalQuantityNotAllowed)
  else if quantize4 quantity ≤ 0 then (st, some .nonPositiveQuantity)
  else if st.stock_quantity < quantize4 quantity then
    (st, some (.insufficientStock st.stock_quantity (quantize4 quantity)))
  else
    match consumeWalk st.decimal_places (quantize4 quantity)
        (orderedBatches st.batches) with
    | ⟨bs', some e, touched⟩ =>
      (if touched then update_quantity { st with batches := bs' }
       else { st with batches := bs' }, some e)
    | ⟨bs', none, _⟩ => (update_quantity { st with batches := bs' }, none)

/-- Creation of a `ProductBatch` row: the `post_save` signal
`update_stock_on_batch_change` recomputes the cached aggregate. -/
def create_batch (st : ProductState) (b : ProductBatch) : ProductState :=
  update_quantity { st with batches := st.batches ++ [b] }

example :
    stock_sell ⟨0, [⟨5, some 20240101, 1⟩, ⟨5, some 20240201, 2⟩], 10⟩ 7 =
    (⟨0, [⟨3, some 20240201, 2⟩], 3⟩, none) := by
  norm_num [stock_sell, quantize4, roundHalfUp, isIntegral, orderedBatches,
    List.insertionSort, List.orderedInsert, batchLE, batchKey, keyLE,
    consumeWalk, ProductBatch.sellStep, update_quantity, sumBatches]

/-! ### Unit conversion (src/inventory/utils.py) -/

/-- The `CONVERSION_RATES` table. -/
def CONVERSION_RATES : List ((String × String) × ℚ) :=
  [(("m", "cm"), 100), (("cm", "m"), 1/100),
   (("m", "mm"), 1000), (("mm", "m"), 1/1000),
   (("cm", "mm"), 10), (("mm", "cm"), 1/10),
   (("inch", "cm"), 254/100), (("cm", "inch"), 393701/1000000),
   (("kg", "g"), 1000), (("g", "kg"), 1/1000),
   (("l", "ml"), 1000), (("ml", "l"), 1/1000),
   (("pcs", "pack"), 1), (("pack", "pcs"), 1)]

/-- Dictionary lookup `CONVERSION_RATES.get((from_unit, to_unit))`. -/
def ratesLookup (k : String × String) : Option ℚ :=
  (CONVERSION_RATES.find? (fun e => e.1 = k)).map (fun e => e.2)

/-- Function `get_conversion_rate(from_unit, to_unit)`: identity for equal
units, then the direct entry, then the inverse of the reverse
entry, else `None`. -/
def get_conversion_rate (from_unit to_unit : String) : Option ℚ :=
  if from_unit = to_unit then some 1
  else
    match ratesLookup (from_unit, to_unit) with
    | some rate => some rate
    | none =>
      match ratesLookup (to_unit, from_unit) with
      | some reverse_rate => some (1 / reverse_rate)
      | none => none

/-- Function `convert_quantity(quantity, from_unit, to_unit)`: multiply by the
conversion rate; `None` models the raised `ValueError` when no rate
exists. -/
def convert_quantity (quantity : ℚ) (from_unit to_unit : String) : Option ℚ :=
  (get_conversion_rate from_unit to_unit).map (fun rate => quantity * rate)

/-- The quantity the serializer persists for a `TransactionItem`
(src/sales/serializers.py `TransactionSerializer.create`):
`TransactionItem.objects.create(quantity=item_data['base_quantity'], …)`
where `base_quantity = convert_quantity(quantity, sell_unit,
product.unit.name)`.  The model column `TransactionItem.quantity` is a
`PositiveIntegerField`; `objects.create` does not run model validators,
and Django's `IntegerField.get_prep_value` converts the value with
Python `int()`, truncating toward zero, before the row is written. -/
def storedItemQuantity (quantity : ℚ) (sell_unit base_unit : String) :
    Option ℤ :=
  (convert_quantity quantity sell_unit base_unit).map pyTrunc

/-! ### Customer (src/customers/models.py) -/

/-- Model `Customer` bookkeeping fields: `total_spent` and `debt` are
2-decimal currency amounts, `loyalty_points` a
`PositiveIntegerField`. -/
structure Customer where
  total_spent : ℚ
  debt : ℚ
  loyalty_points : ℤ
deriving DecidableEq, Repr

/-- Method `Customer.add_debt(amount)`. -/
def Customer.add_debt (c : Customer) (amount : ℚ) : Customer :=
  { c with debt := c.debt + amount }

/-! ### Sale transaction (src/sales/models.py) -/

/-- Choices `Transaction.PAYMENT_METHODS`. -/
inductive PaymentMethod where
  | cash | transfer | card | debt
deriving DecidableEq, Repr

/-- Choices of `Transaction.status`. -/
inductive TxStatus where
  | pending | completed | refunded
deriving DecidableEq, Repr

/-- A `Transaction` together with its `TransactionItem` rows and the
customer record it references.  Each item carries the product id and
the persisted `quantity` - an integer, since the column is a
`PositiveIntegerField`. -/
structure SaleTransaction where
  payment_method : PaymentMethod
  total_amount : ℚ
  status : TxStatus
  items : List (ℕ × ℤ)
  customer : Option Customer
deriving DecidableEq, Repr

/-- Errors raised by `Transaction.process_sale`: `alreadyProcessed` is
"Продажа уже обработана или отменена", `customerRequiredForDebt` is
"Для продажи в долг нужен покупатель", `stockError` wraps an exception
propagated from `Stock.sell`, and `productNotFound` models the
attribute error when an item references a product without a stock
row. -/
inductive SaleError where
  | alreadyProcessed
  | productNotFound
  | stockError (e : SellError)
  | customerRequiredForDebt
deriving DecidableEq, Repr

/-- The product table, keyed by product id. -/
def lookupProduct (ps : List (ℕ × ProductState)) (pid : ℕ) :
    Option ProductState :=
  (ps.find? (fun e => e.1 = pid)).map (fun e => e.2)

def setProduct (ps : List (ℕ × ProductState)) (pid : ℕ)
    (st : ProductState) : List (ℕ × ProductState) :=
  ps.map (fun e => if e.1 = pid then (pid, st) else e)

/-- The `for item in self.items.all(): stock.sell(item.quantity)` loop
of `Transaction.process_sale`.  There is no enclosing
`transaction.atomic()` anywhere on this call path (neither in
`process_sale` nor in `TransactionSerializer.create`, whose
`except` branch carries the comment "В идеале здесь должна быть откат
транзакции" - "ideally there should be a rollback here"): every
`Stock.sell` that completed before a failure keeps its effects. -/
def sellItems (ps : List (ℕ × ProductState)) :
    List (ℕ × ℤ) → List (ℕ × ProductState) × Option SaleError
  | [] => (ps, none)
  | (pid, qty) :: rest =>
    match lookupProduct ps pid with
    | none => (ps, some .productNotFound)
    | some st =>
      match stock_sell st (qty : ℚ) with
      | (st', some e) => (setProduct ps pid st', some (.stockError e))
      | (st', none) => sellItems (setProduct ps pid st') rest

/-- The customer bookkeeping of `process_sale`:
`total_spent += total_amount` and
`loyalty_points += int(total_amount // 10)`. -/
def bookkeepCustomer (total : ℚ) (c : Customer) : Customer :=
  { c with total_spent := c.total_spent + total,
           loyalty_points := c.loyalty_points + decFloorDiv total 10 }

/-- The result of `Transaction.process_sale`: the transaction (with
its customer record) and product table as left behind, plus the raised
error if any. -/
structure ProcResult where
  tx : SaleTransaction
  products : List (ℕ × ProductState)
  err : Option SaleError
deriving DecidableEq, Repr

/-- Method `Transaction.process_sale` (src/sales/models.py lines 56-80):
refuse non-pending transactions; deduct every line item from stock;
for debt payment require a customer and add the total to their debt;
for any present customer update `total_spent` and `loyalty_points`;
mark the transaction completed.  On failure the state mutated so far
is kept (no atomic block, see `sellItems`). -/
def process_sale (tx : SaleTransaction) (ps : List (ℕ × ProductState)) :
    ProcResult :=
  if tx.status ≠ .pending then ⟨tx, ps, some .alreadyProcessed⟩
  else
    match sellItems ps tx.items with
    | (ps', some e) => ⟨tx, ps', some e⟩
    | (ps', none) =>
      if tx.payment_method = .debt ∧ tx.customer = none then
        ⟨tx, ps', some .customerRequiredForDebt⟩
      else
        ⟨{ tx with
            customer := ((if tx.payment_method = .debt
              then tx.customer.map (fun c => c.add_debt tx.total_amount)
              else tx.customer).map (bookkeepCustomer tx.total_amount)),
            status := .completed }, ps', none⟩

/-! ### Spec-side definitions used by refinement claims -/

/-- Written from the spec (§4.2 ordering contract, claim C4): batch `a`
may be consumed no later than batch `b` when either `a` is dated and
`b` undated, or both are dated and `a`'s date is earlier, or the dates
are equal or both absent and `a` was created no later than `b`. -/
def specBatchOrder (a b : ProductBatch) : Prop :=
  match a.expiration_date, b.expiration_date with
  | some da, some db => da < db ∨ (da = db ∧ a.created_at ≤ b.created_at)
  | some _, none => True
  | none, some _ => False
  | none, none => a.created_at ≤ b.created_at

/-- Written from the spec (§4.3 step 3, claim C5), for comparison with
the code's walk: take `min(remaining, batch.quantity)` from each batch
in order until nothing remains; a batch drained to exactly zero is
deleted, a partially drained batch is kept with the difference, and
batches after the stopping point are untouched. -/
def consumeSpec (remaining : ℚ) : List ProductBatch → List ProductBatch
  | [] => []
  | b :: rest =>
    if remaining ≤ 0 then b :: rest
    else if b.quantity ≤ remaining then consumeSpec (remaining - b.quantity) rest
    else { b with quantity := b.quantity - remaining } :: rest

/-! ### Arithmetic helper lemmas -/

theorem floor_intCast_add_half (n : ℤ) : ⌊(n : ℚ) + 1/2⌋ = n := by
  rw [Int.floor_eq_iff]
  constructor
  · linarith
  · linarith

theorem roundHalfUp_intCast (n : ℤ) : roundHalfUp (n : ℚ) = n := by
  unfold roundHalfUp
  split
  · exact floor_intCast_add_half n
  · rw [show -(n : ℚ) + 1/2 = ((-n : ℤ) : ℚ) + 1/2 by push_cast; ring,
      floor_intCast_add_half]
    ring

/-- Values representable on the `DECIMAL(10,4)` grid (an integer number
of ten-thousandths). -/
def IsQ4 (x : ℚ) : Prop := ∃ n : ℤ, x = (n : ℚ) / 10000

theorem IsQ4.quantize4_fix {x : ℚ} (h : IsQ4 x) : quantize4 x = x := by
  obtain ⟨n, rfl⟩ := h
  unfold quantize4
  rw [show (n : ℚ) / 10000 * 10000 = (n : ℚ) by field_simp, roundHalfUp_intCast]

theorem isQ4_quantize4 (x : ℚ) : IsQ4 (quantize4 x) :=
  ⟨roundHalfUp (x * 10000), rfl⟩

theorem quantize4_idem (x : ℚ) : quantize4 (quantize4 x) = quantize4 x :=
  (isQ4_quantize4 x).quantize4_fix

theorem IsQ4.add {x y : ℚ} (hx : IsQ4 x) (hy : IsQ4 y) : IsQ4 (x + y) := by
  obtain ⟨m, rfl⟩ := hx
  obtain ⟨n, rfl⟩ := hy
  exact ⟨m + n, by push_cast; ring⟩

theorem isQ4_sub {x y : ℚ} (hx : IsQ4 x) (hy : IsQ4 y) : IsQ4 (x - y) := by
  obtain ⟨m, rfl⟩ := hx
  obtain ⟨n, rfl⟩ := hy
  exact ⟨m - n, by push_cast; ring⟩

theorem isQ4_min {x y : ℚ} (hx : IsQ4 x) (hy : IsQ4 y) : IsQ4 (min x y) := by
  rcases le_total x y with h | h
  · rwa [min_eq_left h]
  · rwa [min_eq_right h]

theorem isQ4_zero : IsQ4 0 := ⟨0, by norm_num⟩

theorem isIntegral_iff {x : ℚ} : isIntegral x ↔ ∃ n : ℤ, x = (n : ℚ) := by
  constructor
  · intro h
    exact ⟨⌊x⌋, h.symm⟩
  · rintro ⟨n, rfl⟩
    unfold isIntegral
    rw [Int.floor_intCast]

theorem isIntegral_sub {x y : ℚ} (hx : isIntegral x) (hy : isIntegral y) :
    isIntegral (x - y) := by
  rw [isIntegral_iff] at *
  obtain ⟨m, rfl⟩ := hx
  obtain ⟨n, rfl⟩ := hy
  exact ⟨m - n, by push_cast; ring⟩

theorem isIntegral_min {x y : ℚ} (hx : isIntegral x) (hy : isIntegral y) :
    isIntegral (min x y) := by
  rcases le_total x y with h | h
  · rwa [min_eq_left h]
  · rwa [min_eq_right h]

theorem pyTrunc_eq_floor {x : ℚ} (h : 0 ≤ x) : pyTrunc x = ⌊x⌋ := by
  rw [pyTrunc, if_pos h]

/-! ### Walk helper lemmas -/

theorem consumeWalk_nonpos (p : ℕ) {r : ℚ} (h : r ≤ 0)
    (bs : List ProductBatch) : consumeWalk p r bs = ⟨bs, none, false⟩ := by
  cases bs with
  | nil => rfl
  | cons b rest => rw [consumeWalk, if_pos h]

theorem sumBatches_nil : sumBatches [] = 0 := rfl

theorem sumBatches_cons (b : ProductBatch) (bs : List ProductBatch) :
    sumBatches (b :: bs) = b.quantity + sumBatches bs := by
  simp [sumBatches]

theorem sumBatches_nonneg {bs : List ProductBatch}
    (h : ∀ b ∈ bs, 0 ≤ b.quantity) : 0 ≤ sumBatches bs := by
  induction bs with
  | nil => simp [sumBatches]
  | cons b rest ih =>
    rw [sumBatches_cons]
    have := h b (by simp)
    have := ih (fun x hx => h x (by simp [hx]))
    linarith

theorem sumBatches_perm {bs cs : List ProductBatch} (h : bs.Perm cs) :
    sumBatches bs = sumBatches cs :=
  List.Perm.sum_eq (h.map ProductBatch.quantity)

theorem sumBatches_orderedBatches (bs : List ProductBatch) :
    sumBatches (orderedBatches bs) = sumBatches bs :=
  sumBatches_perm (List.perm_insertionSort batchLE bs)

theorem mem_orderedBatches {b : ProductBatch} {bs : List ProductBatch} :
    b ∈ orderedBatches bs ↔ b ∈ bs :=
  List.mem_insertionSort batchLE


/-! ### Unfolding lemmas for the walk -/

theorem consumeWalk_cons (p : ℕ) {r : ℚ} (hr : ¬ r ≤ 0)
    (b : ProductBatch) (rest : List ProductBatch) :
    consumeWalk p r (b :: rest) =
      match b.sellStep p (min r b.quantity) with
      | .error e => ⟨b :: rest, some e, false⟩
      | .ok none =>
        ⟨(consumeWalk p (r - min r b.quantity) rest).batches,
         (consumeWalk p (r - min r b.quantity) rest).err, true⟩
      | .ok (some b') =>
        ⟨b' :: (consumeWalk p (r - min r b.quantity) rest).batches,
         (consumeWalk p (r - min r b.quantity) rest).err, true⟩ := by
  simp only [consumeWalk, if_neg hr]

theorem consumeWalk_cons_err (p : ℕ) {r : ℚ} (hr : ¬ r ≤ 0)
    {b : ProductBatch} (rest : List ProductBatch) {e : SellError}
    (hstep : b.sellStep p (min r b.quantity) = .error e) :
    consumeWalk p r (b :: rest) = ⟨b :: rest, some e, false⟩ := by
  rw [consumeWalk_cons p hr b rest, hstep]

theorem consumeWalk_cons_del (p : ℕ) {r : ℚ} (hr : ¬ r ≤ 0)
    {b : ProductBatch} (rest : List ProductBatch)
    (hstep : b.sellStep p (min r b.quantity) = .ok none) :
    consumeWalk p r (b :: rest) =
      ⟨(consumeWalk p (r - min r b.quantity) rest).batches,
       (consumeWalk p (r - min r b.quantity) rest).err, true⟩ := by
  rw [consumeWalk_cons p hr b rest, hstep]

theorem consumeWalk_cons_keep (p : ℕ) {r : ℚ} (hr : ¬ r ≤ 0)
    {b b' : ProductBatch} (rest : List ProductBatch)
    (hstep : b.sellStep p (min r b.quantity) = .ok (some b')) :
    consumeWalk p r (b :: rest) =
      ⟨b' :: (consumeWalk p (r - min r b.quantity) rest).batches,
       (consumeWalk p (r - min r b.quantity) rest).err, true⟩ := by
  rw [consumeWalk_cons p hr b rest, hstep]

theorem consumeSpec_cons_stop {r : ℚ} (hr : r ≤ 0) (b : ProductBatch)
    (rest : List ProductBatch) : consumeSpec r (b :: rest) = b :: rest := by
  simp only [consumeSpec, if_pos hr]

theorem consumeSpec_cons_all {r : ℚ} {b : ProductBatch} (hr : ¬ r ≤ 0)
    (hbq : b.quantity ≤ r) (rest : List ProductBatch) :
    consumeSpec r (b :: rest) = consumeSpec (r - b.quantity) rest := by
  simp only [consumeSpec, if_neg hr, if_pos hbq]

theorem consumeSpec_cons_part {r : ℚ} {b : ProductBatch} (hr : ¬ r ≤ 0)
    (hbq : ¬ b.quantity ≤ r) (rest : List ProductBatch) :
    consumeSpec r (b :: rest) =
      { b with quantity := b.quantity - r } :: rest := by
  simp only [consumeSpec, if_neg hr, if_neg hbq]

/-- The walk of `Stock.sell` coincides with the spec's greedy FIFO
description whenever the zero-decimal whole-number check cannot fire
mid-walk (for a zero-decimal unit this needs the remaining amount and
all batch quantities to be whole, which validation guarantees for
persisted data). -/
theorem consumeWalk_eq_spec (p : ℕ) (r : ℚ) (bs : List ProductBatch)
    (h : p = 0 → isIntegral r ∧ ∀ b ∈ bs, isIntegral b.quantity) :
    (consumeWalk p r bs).batches = consumeSpec r bs ∧
    (consumeWalk p r bs).err = none := by
  induction bs generalizing r with
  | nil => exact ⟨rfl, rfl⟩
  | cons b rest ih =>
    by_cases hr : r ≤ 0
    · rw [consumeWalk_nonpos p hr, consumeSpec_cons_stop hr]
      exact ⟨rfl, rfl⟩
    · have hstep1 : ¬ (p = 0 ∧ ¬ isIntegral (min r b.quantity)) := by
        rintro ⟨hp, hni⟩
        obtain ⟨hir, hib⟩ := h hp
        exact hni (isIntegral_min hir (hib b (by simp)))
      have hstep2 : ¬ b.quantity < min r b.quantity :=
        not_lt.mpr (min_le_right r b.quantity)
      have hrest : p = 0 → isIntegral (r - min r b.quantity) ∧
          ∀ x ∈ rest, isIntegral x.quantity := by
        intro hp
        obtain ⟨hir, hib⟩ := h hp
        exact ⟨isIntegral_sub hir (isIntegral_min hir (hib b (by simp))),
          fun x hx => hib x (by simp [hx])⟩
      by_cases hbq : b.quantity ≤ r
      · have hamt : min r b.quantity = b.quantity := min_eq_right hbq
        have hzero : b.quantity - min r b.quantity = 0 := by rw [hamt]; ring
        have hstep : b.sellStep p (min r b.quantity) = .ok none := by
          rw [ProductBatch.sellStep, if_neg hstep1, if_neg hstep2,
            if_pos hzero]
        obtain ⟨ih1, ih2⟩ := ih (r - min r b.quantity) hrest
        rw [consumeWalk_cons_del p hr rest hstep,
          consumeSpec_cons_all hr hbq rest]
        refine ⟨?_, ih2⟩
        rw [ih1, hamt]
      · have hlt : r < b.quantity := not_le.mp hbq
        have hamt : min r b.quantity = r := min_eq_left hlt.le
        have hnz : ¬ b.quantity - min r b.quantity = 0 := by
          rw [hamt]
          intro hc
          exact absurd (by linarith : b.quantity = r) (by linarith)
        have hstep : b.sellStep p (min r b.quantity) =
            .ok (some { b with quantity := b.quantity - min r b.quantity }) := by
          rw [ProductBatch.sellStep, if_neg hstep1, if_neg hstep2, if_neg hnz]
        have hwrest : consumeWalk p (r - min r b.quantity) rest =
            ⟨rest, none, false⟩ := by
          rw [hamt]
          exact consumeWalk_nonpos p (by linarith) rest
        rw [consumeWalk_cons_keep p hr rest hstep,
          consumeSpec_cons_part hr hbq rest, hwrest, hamt]
        exact ⟨rfl, rfl⟩

/-- A successful walk that starts within the available ledger total
removes exactly the requested amount from the ledger. -/
theorem consumeWalk_sum (p : ℕ) (r : ℚ) (bs : List ProductBatch)
    (hr0 : 0 ≤ r) (hle : r ≤ sumBatches bs)
    (hpos : ∀ b ∈ bs, 0 ≤ b.quantity)
    (herr : (consumeWalk p r bs).err = none) :
    sumBatches (consumeWalk p r bs).batches = sumBatches bs - r := by
  induction bs generalizing r with
  | nil =>
    have hz : r = 0 := le_antisymm (by simpa [sumBatches] using hle) hr0
    simp [consumeWalk, hz]
  | cons b rest ih =>
    by_cases hr : r ≤ 0
    · have hz : r = 0 := le_antisymm hr hr0
      rw [consumeWalk_nonpos p hr]
      simp [hz]
    · have hrestpos : ∀ x ∈ rest, 0 ≤ x.quantity :=
        fun x hx => hpos x (by simp [hx])
      by_cases hs1 : p = 0 ∧ ¬ isIntegral (min r b.quantity)
      · have hbad : b.sellStep p (min r b.quantity) =
            .error .fractionalQuantityNotAllowed := by
          rw [ProductBatch.sellStep, if_pos hs1]
        rw [consumeWalk_cons_err p hr rest hbad] at herr
        exact absurd herr (by simp)
      · have hstep2 : ¬ b.quantity < min r b.quantity :=
          not_lt.mpr (min_le_right r b.quantity)
        by_cases hbq : b.quantity ≤ r
        · have hamt : min r b.quantity = b.quantity := min_eq_right hbq
          have hzero : b.quantity - min r b.quantity = 0 := by rw [hamt]; ring
          have hstep : b.sellStep p (min r b.quantity) = .ok none := by
            rw [ProductBatch.sellStep, if_neg hs1, if_neg hstep2, if_pos hzero]
          rw [consumeWalk_cons_del p hr rest hstep] at herr ⊢
          have hle' : r - min r b.quantity ≤ sumBatches rest := by
            rw [hamt]
            rw [sumBatches_cons] at hle
            linarith
          have := ih (r - min r b.quantity)
            (by rw [hamt]; linarith) hle' hrestpos herr
          rw [this, sumBatches_cons, hamt]
          ring
        · have hlt : r < b.quantity := not_le.mp hbq
          have hamt : min r b.quantity = r := min_eq_left hlt.le
          have hnz : ¬ b.quantity - min r b.quantity = 0 := by
            rw [hamt]
            intro hc
            exact absurd (by linarith : b.quantity = r) (by linarith)
          have hstep : b.sellStep p (min r b.quantity) =
              .ok (some { b with quantity := b.quantity - min r b.quantity }) := by
            rw [ProductBatch.sellStep, if_neg hs1, if_neg hstep2, if_neg hnz]
          have hwrest : consumeWalk p (r - min r b.quantity) rest =
              ⟨rest, none, false⟩ := by
            rw [hamt]
            exact consumeWalk_nonpos p (by linarith) rest
          rw [consumeWalk_cons_keep p hr rest hstep, hwrest]
          rw [sumBatches_cons, sumBatches_cons, hamt]
          simp only []
          ring

/-- The walk keeps all batch quantities on the `DECIMAL(10,4)` grid. -/
theorem consumeWalk_isQ4 (p : ℕ) (r : ℚ) (bs : List ProductBatch)
    (hr : IsQ4 r) (hb : ∀ b ∈ bs, IsQ4 b.quantity) :
    ∀ b' ∈ (consumeWalk p r bs).batches, IsQ4 b'.quantity := by
  induction bs generalizing r with
  | nil =>
    intro b' hb'
    simp [consumeWalk] at hb'
  | cons b rest ih =>
    by_cases hrle : r ≤ 0
    · rw [consumeWalk_nonpos p hrle]
      exact hb
    · have hbq4 : IsQ4 b.quantity := hb b (by simp)
      have hrest : ∀ x ∈ rest, IsQ4 x.quantity :=
        fun x hx => hb x (by simp [hx])
      have hamt4 : IsQ4 (min r b.quantity) := isQ4_min hr hbq4
      have ihr : IsQ4 (r - min r b.quantity) := isQ4_sub hr hamt4
      by_cases hs1 : p = 0 ∧ ¬ isIntegral (min r b.quantity)
      · have hbad : b.sellStep p (min r b.quantity) =
            .error .fractionalQuantityNotAllowed := by
          rw [ProductBatch.sellStep, if_pos hs1]
        rw [consumeWalk_cons_err p hrle rest hbad]
        exact hb
      · have hstep2 : ¬ b.quantity < min r b.quantity :=
          not_lt.mpr (min_le_right r b.quantity)
        by_cases hzero : b.quantity - min r b.quantity = 0
        · have hstep : b.sellStep p (min r b.quantity) = .ok none := by
            rw [ProductBatch.sellStep, if_neg hs1, if_neg hstep2, if_pos hzero]
          rw [consumeWalk_cons_del p hrle rest hstep]
          exact ih (r - min r b.quantity) ihr hrest
        · have hstep : b.sellStep p (min r b.quantity) =
              .ok (some { b with quantity := b.quantity - min r b.quantity }) := by
            rw [ProductBatch.sellStep, if_neg hs1, if_neg hstep2, if_neg hzero]
          rw [consumeWalk_cons_keep p hrle rest hstep]
          intro b' hb'
          rcases List.mem_cons.mp hb' with hb' | hb'
          · rw [hb']
            exact isQ4_sub hbq4 hamt4
          · exact ih (r - min r b.quantity) ihr hrest b' hb'

/-- Shape of a successful `Stock.sell`: all three validation checks
passed, the walk raised nothing, and the final state is the walked
ledger with the aggregate recomputed. -/
theorem stock_sell_ok {st st' : ProductState} {q : ℚ}
    (h : stock_sell st q = (st', none)) :
    (st.decimal_places = 0 → isIntegral (quantize4 q)) ∧
    ¬ quantize4 q ≤ 0 ∧
    ¬ st.stock_quantity < quantize4 q ∧
    (consumeWalk st.decimal_places (quantize4 q)
      (orderedBatches st.batches)).err = none ∧
    st' = update_quantity { st with
      batches := (consumeWalk st.decimal_places (quantize4 q)
        (orderedBatches st.batches)).batches } := by
  unfold stock_sell at h
  split at h
  · exact absurd (congrArg Prod.snd h) (by simp)
  · split at h
    · exact absurd (congrArg Prod.snd h) (by simp)
    · split at h
      · exact absurd (congrArg Prod.snd h) (by simp)
      · rename_i h1 h2 h3
        split at h
        · exact absurd (congrArg Prod.snd h) (by simp)
        · rename_i bs' touched heq
          refine ⟨fun hp => ?_, h2, h3, ?_, ?_⟩
          · by_contra hni
            exact h1 ⟨hp, hni⟩
          · rw [heq]
          · rw [heq]
            exact (congrArg Prod.fst h).symm

/-- Grid membership `IsQ4` is preserved by summation over a ledger. -/
theorem isQ4_sumBatches {bs : List ProductBatch}
    (h : ∀ b ∈ bs, IsQ4 b.quantity) : IsQ4 (sumBatches bs) := by
  induction bs with
  | nil => exact isQ4_zero
  | cons b rest ih =>
    rw [sumBatches_cons]
    exact (h b (by simp)).add (ih (fun x hx => h x (by simp [hx])))

theorem batchLE_implies_spec {a b : ProductBatch} (h : batchLE a b) :
    specBatchOrder a b := by
  unfold batchLE keyLE batchKey at h
  unfold specBatchOrder
  cases ha : a.expiration_date with
  | some da =>
    cases hb : b.expiration_date with
    | some db => rw [ha, hb] at h; simp at h ⊢; omega
    | none => trivial
  | none =>
    cases hb : b.expiration_date with
    | some db => rw [ha, hb] at h; simp at h
    | none => rw [ha, hb] at h; simp at h ⊢; omega

/-! ### Claim theorems -/

/-- C9: `update_quantity` is idempotent: calling it twice in a row with
no intervening batch mutation leaves `Stock.quantity` (and the whole
state) at the same value as calling it once, because the aggregate is
recomputed from the unchanged ledger. -/
theorem c9_update_quantity_idempotent (st : ProductState) :
    update_quantity (update_quantity st) = update_quantity st := rfl

/-- C4: the batches consumed by `Stock.sell` are enumerated in
ascending `(expiration_date NULLS LAST, created_at)` order: the
enumeration is a permutation of the product's batches that is sorted
so that every dated batch precedes every undated one, dated batches
are ordered by expiration date with ties broken by ascending creation
time, and undated batches are ordered by ascending creation time. -/
theorem c4_fifo_enumeration_order (bs : List ProductBatch) :
    (orderedBatches bs).Perm bs ∧
    List.Sorted specBatchOrder (orderedBatches bs) :=
  ⟨List.perm_insertionSort batchLE bs,
   List.Pairwise.imp (fun h => batchLE_implies_spec h)
     (List.sorted_insertionSort batchLE bs)⟩

/-- C6: whenever the normalized quantity is a valid amount (positive,
and whole for a zero-decimal unit) but exceeds the cached
`Stock.quantity`, `Stock.sell` fails with `InsufficientStock` carrying
the cached available amount and the requested amount, the check is
made against the cached aggregate, and the state - batches and cache -
is returned exactly as it was: no batch is touched. -/
theorem c6_insufficient_stock_fails_fast (st : ProductState) (q : ℚ)
    (h0 : st.decimal_places = 0 → isIntegral (quantize4 q))
    (hpos : 0 < quantize4 q)
    (hlt : st.stock_quantity < quantize4 q) :
    stock_sell st q =
      (st, some (.insufficientStock st.stock_quantity (quantize4 q))) := by
  unfold stock_sell
  rw [if_neg, if_neg (not_le.mpr hpos), if_pos hlt]
  rintro ⟨hp, hni⟩
  exact hni (h0 hp)

/-- Witness for C6: a zero-decimal product with cached stock 1 and a
single batch of 1; requesting 2 fails with `InsufficientStock 1 2` and
leaves the state untouched. -/
theorem c6_insufficient_stock_fails_fast_witness :
    stock_sell ⟨0, [⟨1, none, 0⟩], 1⟩ 2 =
      (⟨0, [⟨1, none, 0⟩], 1⟩, some (.insufficientStock 1 2)) := by
  have hq : quantize4 2 = 2 := by norm_num [quantize4, roundHalfUp]
  have h := c6_insufficient_stock_fails_fast ⟨0, [⟨1, none, 0⟩], 1⟩ 2
    (fun _ => by rw [hq]; norm_num [isIntegral])
    (by rw [hq]; norm_num) (by rw [hq]; norm_num)
  rw [h, hq]

/-- C3 (evaluation at the failing input): with zero batches but a
cached `Stock.quantity` of 5, `Stock.sell(3)` raises nothing - it
returns successfully having consumed no batch, and rewrites the cached
quantity to 0, the sum over the (empty) ledger.  The discrepancy is
silently clamped, not surfaced. -/
theorem c3_zero_batches_sale_silently_clamped :
    stock_sell ⟨0, [], 5⟩ 3 = (⟨0, [], 0⟩, none) := by
  have hq : quantize4 3 = 3 := by norm_num [quantize4, roundHalfUp]
  have hz : quantize4 0 = 0 := by norm_num [quantize4, roundHalfUp]
  unfold stock_sell
  rw [hq]
  rw [if_neg, if_neg (by norm_num), if_neg (by norm_num)]
  · show (update_quantity ⟨0, [], 5⟩, none) = (⟨0, [], 0⟩, none)
    unfold update_quantity
    rw [sumBatches_nil, hz]
  · rintro ⟨-, hni⟩
    exact hni (by norm_num [isIntegral])

/-- C5: `Stock.sell` performs a greedy FIFO walk - the walk over the
ordered batches equals the spec's description (remove
`min(remaining, batch.quantity)` from each batch in order until the
remainder is zero, delete exactly-drained batches, leave later batches
untouched) whenever the zero-decimal mid-walk check cannot fire; in
particular with batches `[2024-01-01: qty 5]`, `[2024-02-01: qty 5]`
selling 7 deletes the first batch and leaves the second with
quantity 3. -/
theorem c5_greedy_fifo_walk :
    (∀ (p : ℕ) (r : ℚ) (bs : List ProductBatch),
      (p = 0 → isIntegral r ∧ ∀ b ∈ bs, isIntegral b.quantity) →
      (consumeWalk p r bs).batches = consumeSpec r bs ∧
      (consumeWalk p r bs).err = none) ∧
    stock_sell ⟨0, [⟨5, some 20240101, 1⟩, ⟨5, some 20240201, 2⟩], 10⟩ 7 =
      (⟨0, [⟨3, some 20240201, 2⟩], 3⟩, none) := by
  constructor
  · exact consumeWalk_eq_spec
  · norm_num [stock_sell, quantize4, roundHalfUp, isIntegral, orderedBatches,
      List.insertionSort, List.orderedInsert, batchLE, batchKey, keyLE,
      consumeWalk, ProductBatch.sellStep, update_quantity, sumBatches]

/-- Witness for C5: the general walk description applied to the
concrete two-batch ledger of the claim. -/
theorem c5_greedy_fifo_walk_witness :
    (consumeWalk 0 7 [⟨5, some 20240101, 1⟩, ⟨5, some 20240201, 2⟩]).batches =
      consumeSpec 7 [⟨5, some 20240101, 1⟩, ⟨5, some 20240201, 2⟩] ∧
    (consumeWalk 0 7 [⟨5, some 20240101, 1⟩, ⟨5, some 20240201, 2⟩]).err =
      none :=
  c5_greedy_fifo_walk.1 0 7 _ (fun _ => by
    constructor
    · norm_num [isIntegral]
    · intro b hb
      simp at hb
      rcases hb with rfl | rfl <;> norm_num [isIntegral])

/-- C7: for every product whose ledger lives on the `DECIMAL(10,4)`
grid (as every persisted batch quantity does), after each completed
core operation - `update_quantity`, batch creation, and a successful
`Stock.sell` (which covers its batch consumptions) - the cached
`Stock.quantity` equals the exact sum of the remaining batch
quantities, because the aggregate is recomputed as a fresh sum over
the ledger. -/
theorem c7_aggregate_equals_ledger_sum (st : ProductState)
    (hst : ∀ b ∈ st.batches, IsQ4 b.quantity) :
    (update_quantity st).stock_quantity =
      sumBatches (update_quantity st).batches ∧
    (∀ nb : ProductBatch, IsQ4 nb.quantity →
      (create_batch st nb).stock_quantity =
        sumBatches (create_batch st nb).batches) ∧
    (∀ (q : ℚ) (st' : ProductState), stock_sell st q = (st', none) →
      st'.stock_quantity = sumBatches st'.batches) := by
  refine ⟨?_, ?_, ?_⟩
  · show quantize4 (sumBatches st.batches) = sumBatches st.batches
    exact (isQ4_sumBatches hst).quantize4_fix
  · intro nb hnb
    show quantize4 (sumBatches (st.batches ++ [nb])) =
      sumBatches (st.batches ++ [nb])
    refine IsQ4.quantize4_fix (isQ4_sumBatches ?_)
    intro b hb
    rcases List.mem_append.mp hb with hb | hb
    · exact hst b hb
    · simp at hb
      rw [hb]
      exact hnb
  · intro q st' h
    obtain ⟨-, -, -, -, hshape⟩ := stock_sell_ok h
    rw [hshape]
    show quantize4 (sumBatches _) = sumBatches _
    refine IsQ4.quantize4_fix (isQ4_sumBatches ?_)
    exact consumeWalk_isQ4 st.decimal_places (quantize4 q)
      (orderedBatches st.batches) (isQ4_quantize4 q)
      (fun b hb => hst b (mem_orderedBatches.mp hb))

/-- Witness for C7: a zero-decimal product with a single batch of 5;
after `update_quantity`, after creating a batch of 2, and after
selling 3, the cached aggregate equals the ledger sum. -/
theorem c7_aggregate_equals_ledger_sum_witness :
    (update_quantity ⟨0, [⟨5, none, 0⟩], 5⟩).stock_quantity =
      sumBatches (update_quantity ⟨0, [⟨5, none, 0⟩], 5⟩).batches ∧
    (∀ nb : ProductBatch, IsQ4 nb.quantity →
      (create_batch ⟨0, [⟨5, none, 0⟩], 5⟩ nb).stock_quantity =
        sumBatches (create_batch ⟨0, [⟨5, none, 0⟩], 5⟩ nb).batches) ∧
    (∀ (q : ℚ) (st' : ProductState),
      stock_sell ⟨0, [⟨5, none, 0⟩], 5⟩ q = (st', none) →
      st'.stock_quantity = sumBatches st'.batches) :=
  c7_aggregate_equals_ledger_sum ⟨0, [⟨5, none, 0⟩], 5⟩ (by
    intro b hb
    simp at hb
    rw [hb]
    exact ⟨50000, by norm_num⟩)

/-- C2 counterexample: for a unit with `decimal_places = 2`,
`Stock.sell` does not normalize the requested quantity to `10^-2`.
Selling `1.005` from a single batch of 5 subtracts `1.005` itself
(leaving `3.995`), whereas quantization to `10^-2` round-half-up
would normalize the request to `1.01` and leave `3.99`. -/
theorem c2_counterexample :
    stock_sell ⟨2, [⟨5, none, 0⟩], 5⟩ (201/200) =
      (⟨2, [⟨799/200, none, 0⟩], 799/200⟩, none) ∧
    specQuantize 2 (201/200) = 101/100 ∧
    (5 : ℚ) - specQuantize 2 (201/200) = 399/100 ∧
    (799/200 : ℚ) ≠ 399/100 := by
  refine ⟨?_, ?_, ?_, by norm_num⟩
  · norm_num [stock_sell, quantize4, roundHalfUp, isIntegral, orderedBatches,
      List.insertionSort, List.orderedInsert, batchLE, batchKey, keyLE,
      consumeWalk, ProductBatch.sellStep, update_quantity, sumBatches]
  · norm_num [specQuantize, roundHalfUp]
  · norm_num [specQuantize, roundHalfUp]

/-- C2 (amended): `Stock.sell` normalizes the requested quantity by
decimal quantization to the fixed exponent `10^-4` with round-half-up,
regardless of the unit's `decimal_places`; a unit with
`decimal_places = 0` rejects any quantity that is non-integral after
that quantization with the fractional-quantity error and mutates
nothing, and a successful sell subtracts exactly the `10^-4`-quantized
amount from the ledger. -/
theorem c2_amended_fixed_4dp_quantization (st : ProductState) (q : ℚ) :
    (st.decimal_places = 0 → ¬ isIntegral (quantize4 q) →
      stock_sell st q = (st, some .fractionalQuantityNotAllowed)) ∧
    (∀ st', stock_sell st q = (st', none) →
      (∀ b ∈ st.batches, 0 ≤ b.quantity) →
      quantize4 q ≤ sumBatches st.batches →
      sumBatches st'.batches = sumBatches st.batches - quantize4 q) := by
  constructor
  · intro hp hni
    unfold stock_sell
    rw [if_pos ⟨hp, hni⟩]
  · intro st' h hpos hle
    obtain ⟨-, hq0, -, herr, hshape⟩ := stock_sell_ok h
    have hsum := consumeWalk_sum st.decimal_places (quantize4 q)
      (orderedBatches st.batches) (le_of_lt (not_le.mp hq0))
      (by rwa [sumBatches_orderedBatches])
      (fun b hb => hpos b (mem_orderedBatches.mp hb)) herr
    rw [hshape]
    show sumBatches (consumeWalk _ _ _).batches = _
    rw [hsum, sumBatches_orderedBatches]

/-- Witness for C2 (amended): selling 2.5 units of a zero-decimal
product is rejected with the fractional-quantity error and mutates
nothing; and the successful sale of 3 from a batch of 5 removes
exactly 3 from the ledger. -/
theorem c2_amended_fixed_4dp_quantization_witness :
    stock_sell ⟨0, [⟨5, none, 0⟩], 5⟩ (5/2) =
      (⟨0, [⟨5, none, 0⟩], 5⟩, some .fractionalQuantityNotAllowed) := by
  have hq : quantize4 (5/2) = 5/2 := by norm_num [quantize4, roundHalfUp]
  refine (c2_amended_fixed_4dp_quantization ⟨0, [⟨5, none, 0⟩], 5⟩ (5/2)).1
    rfl ?_
  rw [hq]
  norm_num [isIntegral]

/-- C1 (evaluation at the failing input): a pending 2-line cash sale -
line 1 sells 3 of product 1 (one batch of 5), line 2 sells 2 of
product 2 (one batch of 1).  Line 2 fails with insufficient stock, the
error propagates, and the final product table keeps line 1's deduction
(product 1 now holds 2, not its original 5): nothing is rolled back,
because no `transaction.atomic` block encloses `process_sale` or
`TransactionSerializer.create`. -/
theorem c1_failed_line_keeps_earlier_deduction :
    process_sale
      ⟨.cash, 0, .pending, [(1, 3), (2, 2)], none⟩
      [(1, ⟨0, [⟨5, none, 0⟩], 5⟩), (2, ⟨0, [⟨1, none, 0⟩], 1⟩)] =
      ⟨⟨.cash, 0, .pending, [(1, 3), (2, 2)], none⟩,
       [(1, ⟨0, [⟨2, none, 0⟩], 2⟩), (2, ⟨0, [⟨1, none, 0⟩], 1⟩)],
       some (.stockError (.insufficientStock 1 2))⟩ ∧
    (⟨0, [⟨2, none, 0⟩], 2⟩ : ProductState) ≠ ⟨0, [⟨5, none, 0⟩], 5⟩ := by
  have h1 : stock_sell ⟨0, [⟨5, none, 0⟩], 5⟩ (3 : ℚ) =
      (⟨0, [⟨2, none, 0⟩], 2⟩, none) := by
    norm_num [stock_sell, quantize4, roundHalfUp, isIntegral, orderedBatches,
      List.insertionSort, List.orderedInsert, batchLE, batchKey, keyLE,
      consumeWalk, ProductBatch.sellStep, update_quantity, sumBatches]
  have h2 : stock_sell ⟨0, [⟨1, none, 0⟩], 1⟩ (2 : ℚ) =
      (⟨0, [⟨1, none, 0⟩], 1⟩, some (.insufficientStock 1 2)) := by
    norm_num [stock_sell, quantize4, roundHalfUp, isIntegral]
  constructor
  · have hsell : sellItems
        [(1, ⟨0, [⟨5, none, 0⟩], 5⟩), (2, ⟨0, [⟨1, none, 0⟩], 1⟩)]
        [(1, 3), (2, 2)] =
        ([(1, ⟨0, [⟨2, none, 0⟩], 2⟩), (2, ⟨0, [⟨1, none, 0⟩], 1⟩)],
         some (.stockError (.insufficientStock 1 2))) := by
      simp [sellItems, lookupProduct, setProduct, h1, h2]
    simp [process_sale, hsell]
  · intro h
    have := congrArg ProductState.stock_quantity h
    norm_num at this

/-- C8: in `process_sale`, (i) a pending debt sale whose stock
deductions succeed but which has no customer fails with
`CustomerRequiredForDebt`; (ii) a completed debt sale increased the
customer's debt by exactly the transaction total; (iii) whatever the
payment method, a completed sale with a customer increased
`total_spent` by the transaction total and `loyalty_points` by
`floor(total_amount / 10)` (truncating; the two agree since the total
is non-negative). -/
theorem c8_debt_and_customer_bookkeeping (tx : SaleTransaction)
    (ps : List (ℕ × ProductState)) :
    (tx.status = .pending → tx.payment_method = .debt →
      tx.customer = none → (sellItems ps tx.items).2 = none →
      (process_sale tx ps).err = some .customerRequiredForDebt) ∧
    ((process_sale tx ps).err = none → tx.payment_method = .debt →
      ∃ c c', tx.customer = some c ∧
        (process_sale tx ps).tx.customer = some c' ∧
        c'.debt = c.debt + tx.total_amount) ∧
    ((process_sale tx ps).err = none → ∀ c, tx.customer = some c →
      ∃ c', (process_sale tx ps).tx.customer = some c' ∧
        c'.total_spent = c.total_spent + tx.total_amount ∧
        (0 ≤ tx.total_amount →
          c'.loyalty_points = c.loyalty_points + ⌊tx.total_amount / 10⌋)) := by
  unfold process_sale
  split
  · rename_i hstat
    refine ⟨fun hpend _ _ _ => absurd hpend hstat, fun herr => ?_,
      fun herr => ?_⟩ <;> simp at herr
  · rename_i hstat
    split
    · rename_i ps' e heq
      refine ⟨fun _ _ _ hnone => ?_, fun herr => ?_, fun herr => ?_⟩
      · rw [heq] at hnone
        simp at hnone
      · simp at herr
      · simp at herr
    · rename_i ps' heq
      split
      · rename_i hdn
        refine ⟨fun _ _ _ _ => rfl, fun herr => ?_, fun _ c hc => ?_⟩
        · simp at herr
        · rw [hdn.2] at hc
          simp at hc
      · rename_i hdn
        refine ⟨fun _ hdm hcn _ => absurd ⟨hdm, hcn⟩ hdn, ?_, ?_⟩
        · intro _ hdm
          rw [if_pos hdm]
          cases hc : tx.customer with
          | none => exact absurd ⟨hdm, hc⟩ hdn
          | some c =>
            refine ⟨c, bookkeepCustomer tx.total_amount
              (c.add_debt tx.total_amount), rfl, by simp, ?_⟩
            simp [bookkeepCustomer, Customer.add_debt]
        · intro _ c hc
          rw [hc]
          by_cases hdm : tx.payment_method = .debt
          · rw [if_pos hdm]
            refine ⟨bookkeepCustomer tx.total_amount
              (c.add_debt tx.total_amount), by simp, ?_, ?_⟩
            · simp [bookkeepCustomer, Customer.add_debt]
            · intro htot
              simp only [bookkeepCustomer, Customer.add_debt, decFloorDiv]
              rw [pyTrunc_eq_floor (by positivity)]
          · rw [if_neg hdm]
            refine ⟨bookkeepCustomer tx.total_amount c, by simp, ?_, ?_⟩
            · simp [bookkeepCustomer]
            · intro htot
              simp only [bookkeepCustomer, decFloorDiv]
              rw [pyTrunc_eq_floor (by positivity)]

/-- Witness for C8: one product with stock 5, item quantity 3, total
100.  A pending debt sale without a customer fails with
`CustomerRequiredForDebt`; the same sale with a fresh customer
(`total_spent = 0`, `debt = 0`, `loyalty_points = 0`) completes with
the customer's debt raised by 100, `total_spent` raised by 100 and
`loyalty_points` raised by `⌊100 / 10⌋ = 10`. -/
theorem c8_debt_and_customer_bookkeeping_witness :
    (process_sale ⟨.debt, 100, .pending, [(1, 3)], none⟩
       [(1, ⟨0, [⟨5, none, 0⟩], 5⟩)]).err =
      some .customerRequiredForDebt ∧
    (∃ c c', some (⟨0, 0, 0⟩ : Customer) = some c ∧
      (process_sale ⟨.debt, 100, .pending, [(1, 3)], some ⟨0, 0, 0⟩⟩
         [(1, ⟨0, [⟨5, none, 0⟩], 5⟩)]).tx.customer = some c' ∧
      c'.debt = c.debt + 100) ∧
    (∃ c', (process_sale ⟨.debt, 100, .pending, [(1, 3)], some ⟨0, 0, 0⟩⟩
         [(1, ⟨0, [⟨5, none, 0⟩], 5⟩)]).tx.customer = some c' ∧
      c'.total_spent = (⟨0, 0, 0⟩ : Customer).total_spent + 100 ∧
      (0 ≤ (100 : ℚ) →
        c'.loyalty_points = (⟨0, 0, 0⟩ : Customer).loyalty_points +
          ⌊(100 : ℚ) / 10⌋)) := by
  have h1 : stock_sell ⟨0, [⟨5, none, 0⟩], 5⟩ (3 : ℚ) =
      (⟨0, [⟨2, none, 0⟩], 2⟩, none) := by
    norm_num [stock_sell, quantize4, roundHalfUp, isIntegral, orderedBatches,
      List.insertionSort, List.orderedInsert, batchLE, batchKey, keyLE,
      consumeWalk, ProductBatch.sellStep, update_quantity, sumBatches]
  have hsell : sellItems [(1, ⟨0, [⟨5, none, 0⟩], 5⟩)] [(1, 3)] =
      ([(1, ⟨0, [⟨2, none, 0⟩], 2⟩)], none) := by
    simp [sellItems, lookupProduct, setProduct, h1]
  have herr : (process_sale ⟨.debt, 100, .pending, [(1, 3)], some ⟨0, 0, 0⟩⟩
      [(1, ⟨0, [⟨5, none, 0⟩], 5⟩)]).err = none := by
    simp [process_sale, hsell]
  refine ⟨?_, ?_, ?_⟩
  · exact (c8_debt_and_customer_bookkeeping
      ⟨.debt, 100, .pending, [(1, 3)], none⟩
      [(1, ⟨0, [⟨5, none, 0⟩], 5⟩)]).1 rfl rfl rfl (by rw [hsell])
  · exact (c8_debt_and_customer_bookkeeping
      ⟨.debt, 100, .pending, [(1, 3)], some ⟨0, 0, 0⟩⟩
      [(1, ⟨0, [⟨5, none, 0⟩], 5⟩)]).2.1 herr rfl
  · exact (c8_debt_and_customer_bookkeeping
      ⟨.debt, 100, .pending, [(1, 3)], some ⟨0, 0, 0⟩⟩
      [(1, ⟨0, [⟨5, none, 0⟩], 5⟩)]).2.2 herr ⟨0, 0, 0⟩ rfl

/-- C10 counterexample: selling 50 cm of a product stored in meters.
The serializer validates the sell-unit quantity 50, converts it to the
base quantity `0.5`, and persists `int(Decimal('0.5')) = 0` in the
`PositiveIntegerField` column - a value that is not an integer at
least 1. -/
theorem c10_counterexample :
    storedItemQuantity 50 "cm" "m" = some 0 ∧ ¬ (1 : ℤ) ≤ 0 := by
  constructor
  · have hrate : get_conversion_rate "cm" "m" = some (1/100) := by
      simp [get_conversion_rate, ratesLookup, CONVERSION_RATES]
    rw [storedItemQuantity, convert_quantity, hrate]
    show some (pyTrunc (50 * (1/100))) = some 0
    rw [show (50 : ℚ) * (1/100) = 1/2 by norm_num,
      pyTrunc_eq_floor (by norm_num)]
    norm_num
  · norm_num

/-- C10 (amended): the quantity the serializer persists for a
`TransactionItem` is always a whole number - Django's integer column
truncates the converted base quantity toward zero - so `process_sale`,
which re-reads the persisted integer, only ever deducts whole
quantities; but the persisted value is only guaranteed non-negative,
not at least 1: a fractional convertible-unit quantity whose base
conversion is below 1 is stored as 0 (the `MinValueValidator(1)` on
the model field is bypassed because `objects.create` does not
validate). -/
theorem c10_amended_stored_quantity_truncated (q r : ℚ)
    (su bu : String) (hr : get_conversion_rate su bu = some r)
    (hq : 0 ≤ q) (hrpos : 0 ≤ r) :
    ∃ n : ℤ, storedItemQuantity q su bu = some n ∧ 0 ≤ n ∧
      (n : ℚ) ≤ q * r ∧ q * r < (n : ℚ) + 1 := by
  have hmul : (0 : ℚ) ≤ q * r := mul_nonneg hq hrpos
  refine ⟨pyTrunc (q * r), ?_, ?_, ?_, ?_⟩
  · rw [storedItemQuantity, convert_quantity, hr]
    rfl
  · rw [pyTrunc_eq_floor hmul]
    exact Int.floor_nonneg.mpr hmul
  · rw [pyTrunc_eq_floor hmul]
    exact Int.floor_le _
  · rw [pyTrunc_eq_floor hmul]
    exact Int.lt_floor_add_one _

/-- Witness for C10 (amended): the 50 cm → m conversion stores
`⌊0.5⌋ = 0`, a whole number with `0 ≤ 0 ≤ 0.5 < 1`. -/
theorem c10_amended_stored_quantity_truncated_witness :
    ∃ n : ℤ, storedItemQuantity 50 "cm" "m" = some n ∧ 0 ≤ n ∧
      (n : ℚ) ≤ 50 * (1/100) ∧ 50 * (1/100) < (n : ℚ) + 1 :=
  c10_amended_stored_quantity_truncated 50 (1/100) "cm" "m"
    (by simp [get_conversion_rate, ratesLookup, CONVERSION_RATES])
    (by norm_num) (by norm_num)
